import Mathlib

/-!
Verification of the markdown-structuring transformer and the image-reference
splicer of the auntie-pdf-to-docx repository.

`transform` embeds `convertMarkdownToParagraphs` (process-pdf script): a single
forward pass over the lines of a markdown string that classifies each line as a
heading, a bullet-list accumulation, a styled paragraph (bold/italic run
extraction by two global substitution passes), a list flush on a blank line, or
a blank spacer.

`splice` embeds the image-reference replacement performed in the OCR document
component: for every image record with a usable inline payload it replaces
`![id](id)` occurrences and then any `![alt](id)` occurrence with the target
rewritten to an inline data URL, matching the id literally.

Strings are modelled as `List Char`; JS string primitives (`split`,
`startsWith`, `includes`, `replace` with a string or an escaped-literal global
regex, `trim` truthiness) are given explicit executable definitions.
-/

/-- Lines of characters stand for JS strings. -/
abbrev LC := List Char

/-- The character set removed by JS `String.prototype.trim`
(ECMAScript WhiteSpace together with LineTerminator), by code point. -/
def jsWhite (c : Char) : Bool :=
  c.toNat = 32 || c.toNat = 9 || c.toNat = 10 || c.toNat = 13 ||
  c.toNat = 11 || c.toNat = 12 || c.toNat = 160 || c.toNat = 0x1680 ||
  (0x2000 ≤ c.toNat && c.toNat ≤ 0x200A) || c.toNat = 0x2028 ||
  c.toNat = 0x2029 || c.toNat = 0x202F || c.toNat = 0x205F ||
  c.toNat = 0x3000 || c.toNat = 0xFEFF

/-- Truthiness of `line.trim()`: the line has some non-whitespace character. -/
def nonBlank (l : LC) : Bool := l.any (fun c => !(jsWhite c))

/-- JS `markdown.split('\n')`: split at every newline, keeping empty segments. -/
def splitLines : LC → List LC
  | [] => [[]]
  | c :: rest =>
    if c = '\n' then [] :: splitLines rest
    else
      match splitLines rest with
      | [] => [[c]]
      | l :: ls => (c :: l) :: ls

/-- Strip `p` from the front of `s`, if `s` starts with `p`. -/
def stripPrefixL : LC → LC → Option LC
  | [], s => some s
  | _ :: _, [] => none
  | p :: ps, c :: cs => if p = c then stripPrefixL ps cs else none

/-- JS `s.startsWith(p)`. -/
def startsWithL (p s : LC) : Bool := (stripPrefixL p s).isSome

/-- First occurrence of `pat` in `s`, returned as the part before the match and
the part after it. -/
def findSub (pat : LC) : LC → Option (LC × LC)
  | [] =>
    match stripPrefixL pat [] with
    | some post => some ([], post)
    | none => none
  | c :: rest =>
    match stripPrefixL pat (c :: rest) with
    | some post => some ([], post)
    | none => (findSub pat rest).map (fun x => (c :: x.1, x.2))

/-- JS `s.includes(pat)`. -/
def containsSub (pat s : LC) : Bool := (findSub pat s).isSome

/-- JS `s.replace(pat, repl)` with a plain string pattern: replace the first
occurrence only (replacement text taken literally). -/
def replaceFirstStr (pat repl s : LC) : LC :=
  match findSub pat s with
  | none => s
  | some (pre, post) => pre ++ repl ++ post

/-- One step of a global replacement: fuelled iteration of `findSub`,
continuing after each replaced occurrence. -/
def replaceAllGo (pat repl : LC) : Nat → LC → LC
  | 0, s => s
  | fuel + 1, s =>
    match findSub pat s with
    | none => s
    | some (pre, post) => pre ++ repl ++ replaceAllGo pat repl fuel post

/-- JS `s.replace(new RegExp(escapedLiteral, 'g'), repl)`: replace every
occurrence of the literal `pat`, scanning left to right and continuing after
each match.  A fuel of `s.length` suffices because every replaced occurrence
consumes at least one character of the nonempty pattern. -/
def replaceAllStr (pat repl s : LC) : LC := replaceAllGo pat repl s.length s

/-- A styled text run: `TextRun({text, bold, italics})`. -/
structure Run where
  text : LC
  bold : Bool
  italic : Bool
deriving DecidableEq, Repr

/-- The structured output unit, one per emitted `Paragraph` of
`convertMarkdownToParagraphs`. -/
inductive Block where
  | Heading (level : Nat) (text : LC)
  | ListItem (text : LC) (isLastInGroup : Bool)
  | StyledParagraph (runs : List Run)
  | BlankSpacer
deriving DecidableEq, Repr

/-- First occurrence of `**` in a line: the part before it and the part
after. -/
def findStarStar : LC → Option (LC × LC)
  | [] => none
  | [_] => none
  | c1 :: c2 :: rest =>
    if c1 = '*' && c2 = '*' then some ([], rest)
    else (findStarStar (c2 :: rest)).map (fun x => (c1 :: x.1, x.2))

/-- First occurrence of `*` in a line: the part before it and the part after. -/
def findStar : LC → Option (LC × LC)
  | [] => none
  | c :: rest =>
    if c = '*' then some ([], rest)
    else (findStar rest).map (fun x => (c :: x.1, x.2))

/-- The global lazy substitution `text.replace(/\*\*(.*?)\*\*/g, push bold)`:
repeatedly take the leftmost `**`, close it at the next `**`, push the span as
a bold run and delete the whole match.  Each iteration consumes at least four
characters, so a fuel of the line length suffices. -/
def extractBoldGo : Nat → LC → List Run × LC
  | 0, s => ([], s)
  | fuel + 1, s =>
    match findStarStar s with
    | none => ([], s)
    | some (pre, rest) =>
      match findStarStar rest with
      | none => ([], s)
      | some (content, rest2) =>
        let r := extractBoldGo fuel rest2
        (⟨content, true, false⟩ :: r.1, pre ++ r.2)

def extractBold (s : LC) : List Run × LC := extractBoldGo s.length s

/-- The global lazy substitution `text.replace(/\*(.*?)\*/g, push italic)`:
same scheme with single-star delimiters. -/
def extractItalicGo : Nat → LC → List Run × LC
  | 0, s => ([], s)
  | fuel + 1, s =>
    match findStar s with
    | none => ([], s)
    | some (pre, rest) =>
      match findStar rest with
      | none => ([], s)
      | some (content, rest2) =>
        let r := extractItalicGo fuel rest2
        (⟨content, false, true⟩ :: r.1, pre ++ r.2)

def extractItalic (s : LC) : List Run × LC := extractItalicGo s.length s

/-- Run extraction for a non-blank, non-heading, non-bullet line: all bold
spans, then all italic spans of the residue, then at most one plain run holding
the residue when its trim is nonempty. -/
def lineToRuns (l : LC) : List Run :=
  let b := extractBold l
  let i := extractItalic b.2
  b.1 ++ i.1 ++ (if nonBlank i.2 then [⟨i.2, false, false⟩] else [])

/-- `line.match(/^[*-] /)`.  -/
def isBulletLine : LC → Bool
  | c1 :: c2 :: _ => (c1 = '-' || c1 = '*') && c2 = ' '
  | _ => false

/-- `line.replace(/^[*-] /, '')`. -/
def stripBullet (l : LC) : LC := if isBulletLine l then l.drop 2 else l

/-- Flush of the accumulated list items: every item becomes a `ListItem`, the
last one carrying the end-of-group spacing flag
(`index === listItems.length - 1`). -/
def flushItems : List LC → List Block
  | [] => []
  | [t] => [Block.ListItem t true]
  | t :: ts => Block.ListItem t false :: flushItems ts

def h1Marker : LC := ['#', ' ']
def h2Marker : LC := ['#', '#', ' ']
def h3Marker : LC := ['#', '#', '#', ' ']

/-- The per-line loop of `convertMarkdownToParagraphs`, carrying the `inList`
flag and the accumulated `listItems`. -/
def processLines : Bool → List LC → List LC → List Block
  | _, _, [] => []
  | inList, items, l :: rest =>
    if startsWithL h1Marker l then
      Block.Heading 1 (replaceFirstStr h1Marker [] l) :: processLines inList items rest
    else if startsWithL h2Marker l then
      Block.Heading 2 (replaceFirstStr h2Marker [] l) :: processLines inList items rest
    else if startsWithL h3Marker l then
      Block.Heading 3 (replaceFirstStr h3Marker [] l) :: processLines inList items rest
    else if isBulletLine l then
      processLines true ((if inList then items else []) ++ [stripBullet l]) rest
    else if nonBlank l then
      Block.StyledParagraph (lineToRuns l) :: processLines inList items rest
    else if inList && !items.isEmpty then
      flushItems items ++ processLines false [] rest
    else
      Block.BlankSpacer :: processLines inList items rest

/-- `convertMarkdownToParagraphs`. -/
def transform (markdown : String) : List Block :=
  processLines false [] (splitLines markdown.data)

/-- An OCR image record: opaque id and optional inline base64 payload
(`img.image_base64 || img.imageBase64`). -/
structure ImageRecord where
  id : LC
  inlineData : Option LC
deriving DecidableEq, Repr

/-- JS object update `imageMap[img.id] = imgSrc`: an existing key keeps its
position and receives the new value, a new key is appended. -/
def upsert : List (LC × LC) → LC → LC → List (LC × LC)
  | [], k, v => [(k, v)]
  | (k', v') :: rest, k, v =>
    if k' = k then (k, v) :: rest else (k', v') :: upsert rest k v

/-- The data-URL construction: keep a payload that already declares a format
tag, otherwise tag it as inline JPEG. -/
def mkDataUrl (b : LC) : LC :=
  if startsWithL "data:".data b then b else "data:image/jpeg;base64,".data ++ b

/-- Building `imageMap`: records whose payload is present and has a nonempty
trim contribute their data URL, keyed by id, in record order. -/
def buildImageMap (rs : List ImageRecord) : List (LC × LC) :=
  rs.foldl
    (fun m r =>
      match r.inlineData with
      | none => m
      | some b => if nonBlank b then upsert m r.id (mkDataUrl b) else m)
    []

/-- Scan for the closing part `](id)` of the loose image regex
`!\[(.*?)\]\(id\)`: the lazy group takes the shortest span, cannot cross a
newline, and the id is matched literally (it was regex-escaped). -/
def findCloser (idc : LC) : LC → Option (LC × LC)
  | [] => none
  | c :: rest =>
    match stripPrefixL (']' :: '(' :: (idc ++ [')'])) (c :: rest) with
    | some post => some ([], post)
    | none =>
      if c = '\n' then none
      else (findCloser idc rest).map (fun x => (c :: x.1, x.2))

/-- Leftmost match of `!\[(.*?)\]\(id\)`: the earliest `![` opener that has a
reachable closer; on failure the scan resumes at the next opener. -/
def findOpenMatch (idc : LC) : LC → Option (LC × LC × LC)
  | [] => none
  | [_] => none
  | c1 :: c2 :: rest =>
    if c1 = '!' && c2 = '[' then
      match findCloser idc rest with
      | some (alt, post) => some ([], alt, post)
      | none => (findOpenMatch idc rest).map (fun x => (c1 :: c2 :: x.1, x.2.1, x.2.2))
    else (findOpenMatch idc (c2 :: rest)).map (fun x => (c1 :: x.1, x.2.1, x.2.2))

/-- The full text of a loose match with alt text `alt`. -/
def looseMatchText (idc alt : LC) : LC :=
  '!' :: '[' :: (alt ++ ']' :: '(' :: (idc ++ [')']))

/-- `[...markdown.matchAll(regex)]` for the loose image regex: all
non-overlapping matches in order, each as (full match text, alt text).  Every
match consumes at least five characters, so a fuel of the subject length
suffices. -/
def regexMatchesGo (idc : LC) : Nat → LC → List (LC × LC)
  | 0, _ => []
  | fuel + 1, s =>
    match findOpenMatch idc s with
    | none => []
    | some (_, alt, post) => (looseMatchText idc alt, alt) :: regexMatchesGo idc fuel post

def regexMatches (idc s : LC) : List (LC × LC) := regexMatchesGo idc s.length s

/-- `matches.forEach(replace first occurrence of the full match text by the
alt-preserving data reference)`, applied sequentially to the evolving
string. -/
def applyMatches (dataUrl : LC) : List (LC × LC) → LC → LC
  | [], s => s
  | (full, alt) :: rest, s =>
    applyMatches dataUrl rest
      (replaceFirstStr full ('!' :: '[' :: (alt ++ ']' :: '(' :: (dataUrl ++ [')']))) s)

/-- Processing of one `imageMap` entry: the exact `![id](id)` pass (global
replacement, guarded by `includes`), then the loose `![alt](id)` pass on the
updated string. -/
def spliceOne (md imgId dataUrl : LC) : LC :=
  let exact := '!' :: '[' :: (imgId ++ ']' :: '(' :: (imgId ++ [')']))
  let md1 :=
    if containsSub exact md then
      replaceAllStr exact ('!' :: '[' :: (imgId ++ ']' :: '(' :: (dataUrl ++ [')']))) md
    else md
  applyMatches dataUrl (regexMatches imgId md1) md1

/-- The image reference splicer: build the image map from the records, then
rewrite the markdown for each entry in order. -/
def splice (md : LC) (rs : List ImageRecord) : LC :=
  (buildImageMap rs).foldl (fun s e => spliceOne s e.1 e.2) md

/-- The base64 alphabet (the payloads are inline base64 encodings). -/
def base64Char (c : Char) : Bool :=
  (65 ≤ c.toNat && c.toNat ≤ 90) || (97 ≤ c.toNat && c.toNat ≤ 122) ||
  (48 ≤ c.toNat && c.toNat ≤ 57) || c = '+' || c = '/' || c = '='

/-- Recognizer for `ListItem` blocks. -/
def isListItemBlock : Block → Bool
  | Block.ListItem _ _ => true
  | _ => false

/-- Recognizer for `StyledParagraph` blocks. -/
def isStyledBlock : Block → Bool
  | Block.StyledParagraph _ => true
  | _ => false

theorem isBulletLine_shape {l : LC} (h : isBulletLine l = true) :
    ∃ c1 rest, l = c1 :: ' ' :: rest ∧ (c1 = '-' ∨ c1 = '*') := by
  match l with
  | [] => simp [isBulletLine] at h
  | [_] => simp [isBulletLine] at h
  | c1 :: c2 :: rest =>
    simp [isBulletLine] at h
    exact ⟨c1, rest, by rw [h.2], h.1⟩

theorem bullet_not_heading {l : LC} (h : isBulletLine l = true) :
    startsWithL h1Marker l = false ∧ startsWithL h2Marker l = false ∧
      startsWithL h3Marker l = false := by
  obtain ⟨c1, rest, rfl, hc⟩ := isBulletLine_shape h
  rcases hc with rfl | rfl <;>
    simp [startsWithL, stripPrefixL, h1Marker, h2Marker, h3Marker]

theorem processLines_bullet (inList : Bool) (items : List LC) {l : LC}
    (rest : List LC) (h : isBulletLine l = true) :
    processLines inList items (l :: rest)
      = processLines true ((if inList then items else []) ++ [stripBullet l]) rest := by
  obtain ⟨h1, h2, h3⟩ := bullet_not_heading h
  simp [processLines, h1, h2, h3, h]

theorem processLines_allBullets (bs : List LC)
    (hb : ∀ l ∈ bs, isBulletLine l = true) :
    ∀ (inList : Bool) (items : List LC), processLines inList items bs = [] := by
  induction bs with
  | nil => intro inList items; rfl
  | cons l rest ih =>
    intro inList items
    rw [processLines_bullet inList items rest (hb l (by simp))]
    exact ih (fun x hx => hb x (by simp [hx])) _ _

theorem processLines_append_bullets (bs : List LC)
    (hb : ∀ l ∈ bs, isBulletLine l = true) :
    ∀ (ls : List LC) (inList : Bool) (items : List LC),
      processLines inList items (ls ++ bs) = processLines inList items ls := by
  intro ls
  induction ls with
  | nil =>
    intro inList items
    simpa using processLines_allBullets bs hb inList items
  | cons l rest ih =>
    intro inList items
    simp only [List.cons_append, processLines]
    split
    · simp [ih]
    · split
      · simp [ih]
      · split
        · simp [ih]
        · split
          · simp [ih]
          · split
            · simp [ih]
            · split
              · simp [ih]
              · simp [ih]

/-- C1: `transform "- a\n- b\n- c\n\n"` emits the three `ListItem` blocks
`"a"`, `"b"`, `"c"` in accumulation order, only the third carrying
`isLastInGroup = true`, and the blank line that triggered the flush does not
also emit a `BlankSpacer` (the single trailing spacer comes from the final
empty segment after the last newline). -/
theorem c1_list_flush_on_blank :
    transform "- a\n- b\n- c\n\n" =
      [Block.ListItem "a".data false, Block.ListItem "b".data false,
       Block.ListItem "c".data true, Block.BlankSpacer] ∧
    (transform "- a\n- b\n- c\n\n").countP isListItemBlock = 3 := by decide

/-- C2: bullet lines only accumulate and the accumulator is dropped at end of
input, so appending a trailing run of bullet lines never changes the emitted
blocks; in particular `transform "- a\n- b"` emits no block at all. -/
theorem c2_trailing_list_never_flushed :
    (∀ (inList : Bool) (items : List LC) (ls bs : List LC),
        (∀ l ∈ bs, isBulletLine l = true) →
        processLines inList items (ls ++ bs) = processLines inList items ls) ∧
    transform "- a\n- b" = [] := by
  constructor
  · intro inList items ls bs hb
    exact processLines_append_bullets bs hb ls inList items
  · decide

theorem c2_trailing_list_never_flushed_witness :
    ((∀ l ∈ ["- x".data], isBulletLine l = true) ∧
      processLines false [] (["t".data] ++ ["- x".data])
        = processLines false [] ["t".data]) ∧
    transform "- a\n- b" = [] :=
  ⟨⟨by decide,
    c2_trailing_list_never_flushed.1 false [] ["t".data] ["- x".data] (by decide)⟩,
   c2_trailing_list_never_flushed.2⟩

theorem extractBoldGo_flags (fuel : Nat) :
    ∀ (s : LC), ∀ r ∈ (extractBoldGo fuel s).1, r.bold = true ∧ r.italic = false := by
  induction fuel with
  | zero => intro s r hr; simp [extractBoldGo] at hr
  | succ n ih =>
    intro s r hr
    rw [extractBoldGo] at hr
    rcases h1 : findStarStar s with _ | ⟨pre, rest⟩
    · rw [h1] at hr; simp at hr
    · rw [h1] at hr
      dsimp only at hr
      rcases h2 : findStarStar rest with _ | ⟨content, rest2⟩
      · rw [h2] at hr; simp at hr
      · rw [h2] at hr
        simp at hr
        rcases hr with rfl | hr
        · exact ⟨rfl, rfl⟩
        · exact ih rest2 r hr

theorem extractItalicGo_flags (fuel : Nat) :
    ∀ (s : LC), ∀ r ∈ (extractItalicGo fuel s).1, r.bold = false ∧ r.italic = true := by
  induction fuel with
  | zero => intro s r hr; simp [extractItalicGo] at hr
  | succ n ih =>
    intro s r hr
    rw [extractItalicGo] at hr
    rcases h1 : findStar s with _ | ⟨pre, rest⟩
    · rw [h1] at hr; simp at hr
    · rw [h1] at hr
      dsimp only at hr
      rcases h2 : findStar rest with _ | ⟨content, rest2⟩
      · rw [h2] at hr; simp at hr
      · rw [h2] at hr
        simp at hr
        rcases hr with rfl | hr
        · exact ⟨rfl, rfl⟩
        · exact ih rest2 r hr

/-- C3: on the concrete line the single `StyledParagraph` holds the bold run,
then the italic run, then the leftover plain run; and in general the run list
of any line decomposes as all-bold runs, then all-italic runs, then at most one
plain run. -/
theorem c3_bold_italic_extraction_order :
    transform "**Bold** and *italic* text" =
      [Block.StyledParagraph
        [⟨"Bold".data, true, false⟩, ⟨"italic".data, false, true⟩,
         ⟨" and  text".data, false, false⟩]] ∧
    ∀ l : LC, ∃ (bold ital plain : List Run),
      lineToRuns l = bold ++ ital ++ plain ∧
      (∀ r ∈ bold, r.bold = true ∧ r.italic = false) ∧
      (∀ r ∈ ital, r.bold = false ∧ r.italic = true) ∧
      (plain = [] ∨ ∃ t : LC, plain = [⟨t, false, false⟩]) := by
  constructor
  · decide
  · intro l
    refine ⟨(extractBold l).1, (extractItalic (extractBold l).2).1,
      if nonBlank (extractItalic (extractBold l).2).2
        then [⟨(extractItalic (extractBold l).2).2, false, false⟩] else [],
      rfl, fun r hr => extractBoldGo_flags _ _ r hr,
      fun r hr => extractItalicGo_flags _ _ r hr, ?_⟩
    split
    · right; exact ⟨_, rfl⟩
    · left; rfl

theorem stripPrefixL_some_iff (p : LC) :
    ∀ (s t : LC), stripPrefixL p s = some t ↔ s = p ++ t := by
  induction p with
  | nil => intro s t; simp [stripPrefixL, eq_comm]
  | cons c cs ih =>
    intro s t
    cases s with
    | nil => simp [stripPrefixL]
    | cons d ds =>
      simp only [stripPrefixL]
      by_cases h : c = d
      · subst h; simp [ih]
      · simp [h]
        intro h'
        exact absurd h'.symm h

theorem startsWithL_iff (p s : LC) : startsWithL p s = true ↔ ∃ t, s = p ++ t := by
  simp only [startsWithL, Option.isSome_iff_exists]
  constructor
  · rintro ⟨t, ht⟩; exact ⟨t, (stripPrefixL_some_iff p s t).mp ht⟩
  · rintro ⟨t, ht⟩; exact ⟨t, (stripPrefixL_some_iff p s t).mpr ht⟩

/-- The line classes of the transformer, as predicates: heading line, bullet
line, styled-paragraph line, list-flushing blank line, spacer blank line. -/
def headingClass (l : LC) : Bool :=
  startsWithL h1Marker l || startsWithL h2Marker l || startsWithL h3Marker l

def blankClass (l : LC) : Bool := !nonBlank l

def styledClass (l : LC) : Bool :=
  !headingClass l && !isBulletLine l && nonBlank l

def flushClass (inList : Bool) (items : List LC) (l : LC) : Bool :=
  blankClass l && (inList && !items.isEmpty)

def spacerClass (inList : Bool) (items : List LC) (l : LC) : Bool :=
  blankClass l && !(inList && !items.isEmpty)

/-- The heading block emitted for a heading line, at the matching level. -/
def headingBlock (l : LC) : Block :=
  if startsWithL h1Marker l then Block.Heading 1 (replaceFirstStr h1Marker [] l)
  else if startsWithL h2Marker l then Block.Heading 2 (replaceFirstStr h2Marker [] l)
  else Block.Heading 3 (replaceFirstStr h3Marker [] l)

theorem heading_head {l : LC} (h : headingClass l = true) : ∃ t, l = '#' :: t := by
  simp only [headingClass, Bool.or_eq_true] at h
  rcases h with (h | h) | h <;>
    · obtain ⟨t, rfl⟩ := (startsWithL_iff _ _).mp h
      exact ⟨_, rfl⟩

theorem heading_not_bullet {l : LC} (h : headingClass l = true) :
    isBulletLine l = false := by
  obtain ⟨t, rfl⟩ := heading_head h
  cases t with
  | nil => rfl
  | cons c cs => simp [isBulletLine]

theorem heading_nonBlank {l : LC} (h : headingClass l = true) :
    nonBlank l = true := by
  obtain ⟨t, rfl⟩ := heading_head h
  simp [nonBlank, show jsWhite '#' = false from by decide]

theorem bullet_nonBlank {l : LC} (h : isBulletLine l = true) :
    nonBlank l = true := by
  obtain ⟨c1, rest, rfl, hc⟩ := isBulletLine_shape h
  rcases hc with rfl | rfl <;>
    simp [nonBlank, show jsWhite '-' = false from by decide,
      show jsWhite '*' = false from by decide]

/-- Classification of one processing step: exactly one line class applies and
`processLines` acts according to it. -/
theorem processLines_classify :
    ∀ (inList : Bool) (items : List LC) (l : LC) (rest : List LC),
      ([headingClass l, isBulletLine l, styledClass l,
        flushClass inList items l, spacerClass inList items l].count true = 1) ∧
      processLines inList items (l :: rest) =
        (if headingClass l then
          headingBlock l :: processLines inList items rest
        else if isBulletLine l then
          processLines true ((if inList then items else []) ++ [stripBullet l]) rest
        else if styledClass l then
          Block.StyledParagraph (lineToRuns l) :: processLines inList items rest
        else if flushClass inList items l then
          flushItems items ++ processLines false [] rest
        else
          Block.BlankSpacer :: processLines inList items rest) := by
  intro inList items l rest
  by_cases hh : headingClass l = true
  · have hb := heading_not_bullet hh
    have hn := heading_nonBlank hh
    have h123 := hh
    simp only [headingClass, Bool.or_eq_true] at h123
    constructor
    · simp [hh, hb, styledClass, flushClass, spacerClass, blankClass, hn, List.count]
    · rcases h123 with (h1 | h2) | h3
      · simp [processLines, hh, h1, headingBlock]
      · by_cases h1 : startsWithL h1Marker l = true
        · simp [processLines, hh, h1, headingBlock]
        · simp [processLines, hh, h1, h2, headingBlock]
      · by_cases h1 : startsWithL h1Marker l = true
        · simp [processLines, hh, h1, headingBlock]
        · by_cases h2 : startsWithL h2Marker l = true
          · simp [processLines, hh, h1, h2, headingBlock]
          · simp [processLines, hh, h1, h2, h3, headingBlock]
  · have hh' : headingClass l = false := by simpa using hh
    have h1 : startsWithL h1Marker l = false := by
      simp only [headingClass, Bool.or_eq_true] at hh; simpa using fun h => hh (Or.inl (Or.inl h))
    have h2 : startsWithL h2Marker l = false := by
      simp only [headingClass, Bool.or_eq_true] at hh; simpa using fun h => hh (Or.inl (Or.inr h))
    have h3 : startsWithL h3Marker l = false := by
      simp only [headingClass, Bool.or_eq_true] at hh; simpa using fun h => hh (Or.inr h)
    by_cases hb : isBulletLine l = true
    · have hn := bullet_nonBlank hb
      constructor
      · simp [hh', hb, styledClass, flushClass, spacerClass, blankClass, hn, List.count]
      · simp [processLines, hh', h1, h2, h3, hb]
    · have hb' : isBulletLine l = false := by simpa using hb
      by_cases hn : nonBlank l = true
      · constructor
        · simp [hh', hb', styledClass, flushClass, spacerClass, blankClass, hn, List.count]
        · simp [processLines, hh', h1, h2, h3, hb', hn, styledClass]
      · have hn' : nonBlank l = false := by simpa using hn
        by_cases hp : (inList && !items.isEmpty) = true
        · constructor
          · simp [hh', hb', styledClass, flushClass, spacerClass, blankClass, hn', hp, List.count]
          · simp [processLines, hh', h1, h2, h3, hb', hn', styledClass, flushClass, blankClass, hp]
        · have hp' : (inList && !items.isEmpty) = false := by simpa using hp
          constructor
          · simp [hh', hb', styledClass, flushClass, spacerClass, blankClass, hn', hp', List.count]
          · simp [processLines, hh', h1, h2, h3, hb', hn', styledClass, flushClass, blankClass, hp']

/-- C4: `transform` is a total function; on every line, given any carried
state, exactly one of the five classes (heading, bullet accumulation, styled
paragraph, list flush, blank spacer) applies, and `processLines` consumes the
line with exactly that class's contribution. -/
theorem c4_transform_total_classification :
    ∀ (inList : Bool) (items : List LC) (l : LC) (rest : List LC),
      ([headingClass l, isBulletLine l, styledClass l,
        flushClass inList items l, spacerClass inList items l].count true = 1) ∧
      processLines inList items (l :: rest) =
        (if headingClass l then
          headingBlock l :: processLines inList items rest
        else if isBulletLine l then
          processLines true ((if inList then items else []) ++ [stripBullet l]) rest
        else if styledClass l then
          Block.StyledParagraph (lineToRuns l) :: processLines inList items rest
        else if flushClass inList items l then
          flushItems items ++ processLines false [] rest
        else
          Block.BlankSpacer :: processLines inList items rest) :=
  processLines_classify

theorem flushItems_no_styled : ∀ (items : List LC),
    (flushItems items).countP isStyledBlock = 0 := by
  intro items
  induction items with
  | nil => simp [flushItems]
  | cons t ts ih =>
    cases ts with
    | nil => simp [flushItems, isStyledBlock]
    | cons c cs =>
      simp only [flushItems]
      simp [isStyledBlock, ih]

theorem processLines_styled_count :
    ∀ (ls : List LC) (inList : Bool) (items : List LC),
      (processLines inList items ls).countP isStyledBlock = ls.countP styledClass := by
  intro ls
  induction ls with
  | nil => intro inList items; rfl
  | cons l rest ih =>
    intro inList items
    rcases (processLines_classify inList items l rest).2 with hchar
    rw [hchar]
    by_cases hh : headingClass l = true
    · have h0 : styledClass l = false := by simp [styledClass, hh]
      have h0' : isStyledBlock (headingBlock l) = false := by
        unfold headingBlock
        split
        · rfl
        · split <;> rfl
      simp [hh, ih, List.countP_cons, h0, h0']
    · have hh' : headingClass l = false := by simpa using hh
      by_cases hb : isBulletLine l = true
      · have : styledClass l = false := by simp [styledClass, hb]
        simp [hh', hb, ih, List.countP_cons, this]
      · have hb' : isBulletLine l = false := by simpa using hb
        by_cases hs : styledClass l = true
        · simp [hh', hb', hs, isStyledBlock, ih, List.countP_cons]
        · have hs' : styledClass l = false := by simpa using hs
          by_cases hf : flushClass inList items l = true
          · simp [hh', hb', hs', hf, ih, List.countP_cons,
              List.countP_append, flushItems_no_styled]
          · have hf' : flushClass inList items l = false := by simpa using hf
            simp [hh', hb', hs', hf', isStyledBlock, ih, List.countP_cons]

/-- C5: for every input, the number of `StyledParagraph` blocks produced by
`transform` equals the number of lines that are non-blank, not prefixed by a
heading marker and not prefixed by a bullet marker. -/
theorem c5_styled_paragraph_count (md : String) :
    (transform md).countP isStyledBlock = (splitLines md.data).countP styledClass :=
  processLines_styled_count (splitLines md.data) false []

/-- C9: a `"# "` line is emitted immediately as a level-1 heading and leaves
the list accumulator untouched; concretely a list accumulated before the
heading is flushed only by the later blank line, after the heading in the
output. -/
theorem c9_heading_does_not_flush_list :
    ∀ (inList : Bool) (items : List LC) (l : LC) (rest : List LC),
      startsWithL h1Marker l = true →
      processLines inList items (l :: rest)
          = Block.Heading 1 (replaceFirstStr h1Marker [] l) :: processLines inList items rest ∧
      transform "- a\n# h\n"
          = [Block.Heading 1 "h".data, Block.ListItem "a".data true] := by
  intro inList items l rest h
  refine ⟨by simp [processLines, h], by decide⟩

theorem c9_heading_does_not_flush_list_witness :
    processLines true ["a".data] ("# h".data :: [])
        = Block.Heading 1 (replaceFirstStr h1Marker [] "# h".data)
            :: processLines true ["a".data] [] ∧
    transform "- a\n# h\n" = [Block.Heading 1 "h".data, Block.ListItem "a".data true] :=
  c9_heading_does_not_flush_list true ["a".data] "# h".data [] (by decide)

theorem allWhite_not_heading_marker {l : LC} (m : LC) (hm : ∃ t, m = '#' :: t)
    (h : l.all jsWhite = true) : startsWithL m l = false := by
  by_contra hc
  have hc' : startsWithL m l = true := by simpa using hc
  obtain ⟨t, rfl⟩ := hm
  obtain ⟨u, rfl⟩ := (startsWithL_iff _ _).mp hc'
  simp [List.all_cons, show jsWhite '#' = false from by decide] at h

theorem allWhite_guards {l : LC} (h : l.all jsWhite = true) :
    startsWithL h1Marker l = false ∧ startsWithL h2Marker l = false ∧
      startsWithL h3Marker l = false ∧ isBulletLine l = false ∧
      nonBlank l = false := by
  refine ⟨allWhite_not_heading_marker h1Marker ⟨_, rfl⟩ h,
    allWhite_not_heading_marker h2Marker ⟨_, rfl⟩ h,
    allWhite_not_heading_marker h3Marker ⟨_, rfl⟩ h, ?_, ?_⟩
  · by_contra hb
    have hb' : isBulletLine l = true := by simpa using hb
    obtain ⟨c1, rest, rfl, hc⟩ := isBulletLine_shape hb'
    rcases hc with rfl | rfl <;>
      simp [List.all_cons, show jsWhite '-' = false from by decide,
        show jsWhite '*' = false from by decide] at h
  · simp only [List.all_eq_true] at h
    simp only [nonBlank, List.any_eq_false]
    intro c hc
    simp [h c hc]

/-- C10: a line of only whitespace characters is handled exactly like an empty
line: it flushes a pending list, otherwise emits a `BlankSpacer`, and never
yields a `StyledParagraph`. -/
theorem c10_whitespace_line_is_blank :
    ∀ (inList : Bool) (items : List LC) (l : LC) (rest : List LC),
      l.all jsWhite = true →
      processLines inList items (l :: rest) = processLines inList items ([] :: rest) ∧
      processLines inList items (l :: rest) =
        (if inList && !items.isEmpty then
          flushItems items ++ processLines false [] rest
        else
          Block.BlankSpacer :: processLines inList items rest) := by
  intro inList items l rest h
  obtain ⟨g1, g2, g3, g4, g5⟩ := allWhite_guards h
  have e1 : startsWithL h1Marker ([] : LC) = false := by decide
  have e2 : startsWithL h2Marker ([] : LC) = false := by decide
  have e3 : startsWithL h3Marker ([] : LC) = false := by decide
  have e4 : isBulletLine ([] : LC) = false := by decide
  have e5 : nonBlank ([] : LC) = false := by decide
  constructor
  · simp [processLines, g1, g2, g3, g4, g5, e1, e2, e3, e4, e5]
  · simp [processLines, g1, g2, g3, g4, g5]

theorem c10_whitespace_line_is_blank_witness :
    (processLines true ["a".data] ("   ".data :: [])
        = processLines true ["a".data] ([] :: []) ∧
      processLines true ["a".data] ("   ".data :: []) =
        (if true && !(["a".data] : List LC).isEmpty then
          flushItems ["a".data] ++ processLines false [] []
        else
          Block.BlankSpacer :: processLines true ["a".data] [])) :=
  c10_whitespace_line_is_blank true ["a".data] "   ".data [] (by decide)

theorem b64_ne {c x : Char} (h : base64Char c = true) (hx : base64Char x = false) :
    c ≠ x := by
  intro he
  rw [he, hx] at h
  cases h

theorem b64_not_white {c : Char} (h : base64Char c = true) : jsWhite c = false := by
  by_cases h1 : c = '+'
  · subst h1; decide
  · by_cases h2 : c = '/'
    · subst h2; decide
    · by_cases h3 : c = '='
      · subst h3; decide
      · simp only [base64Char, Bool.or_eq_true, Bool.and_eq_true,
          decide_eq_true_eq, h1, h2, h3, or_false] at h
        rw [Bool.eq_false_iff]
        intro hw
        simp only [jsWhite, Bool.or_eq_true, Bool.and_eq_true,
          decide_eq_true_eq] at hw
        omega

theorem nonBlank_of_b64 {b : LC} (hne : b ≠ []) (hb : ∀ c ∈ b, base64Char c = true) :
    nonBlank b = true := by
  cases b with
  | nil => exact absurd rfl hne
  | cons c rest =>
    have := b64_not_white (hb c (by simp))
    simp [nonBlank, this]

theorem not_data_prefix_of_b64 {b : LC} (hb : ∀ c ∈ b, base64Char c = true) :
    startsWithL "data:".data b = false := by
  rw [Bool.eq_false_iff]
  intro hs
  obtain ⟨t, rfl⟩ := (startsWithL_iff _ _).mp hs
  have : base64Char ':' = true := hb ':' (by simp)
  rw [show base64Char ':' = false from by decide] at this
  cases this

theorem findOpenMatch_no_bang (idc : LC) :
    ∀ (s : LC), '!' ∉ s → findOpenMatch idc s = none := by
  intro s
  induction s with
  | nil => intro _; rfl
  | cons c rest ih =>
    intro h
    cases rest with
    | nil => rfl
    | cons c2 rest2 =>
      have hc : ¬(c = '!') := fun he => h (by simp [he])
      have h2 : '!' ∉ c2 :: rest2 := fun hm => h (List.mem_cons_of_mem _ hm)
      simp only [findOpenMatch]
      rw [if_neg (by simp [hc])]
      rw [ih h2]
      rfl

theorem findCloser_no_rbracket (idc : LC) :
    ∀ (s : LC), ']' ∉ s → findCloser idc s = none := by
  intro s
  induction s with
  | nil => intro _; rfl
  | cons c rest ih =>
    intro h
    have hc : ¬(']' = c) := fun he => h (by simp [he.symm])
    have hstrip : stripPrefixL (']' :: '(' :: (idc ++ [')'])) (c :: rest) = none := by
      simp only [stripPrefixL]
      rw [if_neg hc]
    have h2 : ']' ∉ rest := fun hm => h (List.mem_cons_of_mem _ hm)
    simp only [findCloser, hstrip]
    by_cases hn : c = '\n'
    · simp [hn]
    · simp [hn, ih h2]

theorem regexMatchesGo_of_none {idc s : LC} (h : findOpenMatch idc s = none) :
    ∀ fuel, regexMatchesGo idc fuel s = [] := by
  intro fuel
  cases fuel with
  | zero => rfl
  | succ n => simp [regexMatchesGo, h]

theorem replaceAllGo_nil_of_none {pat repl : LC} (h : findSub pat [] = none) :
    ∀ fuel, replaceAllGo pat repl fuel [] = [] := by
  intro fuel
  cases fuel with
  | zero => rfl
  | succ n => simp [replaceAllGo, h]

theorem buildImageMap_empty_of_no_payload :
    ∀ (rs : List ImageRecord), (∀ r ∈ rs, r.inlineData.getD [] = []) →
      buildImageMap rs = [] := by
  have aux : ∀ (rs : List ImageRecord) (m : List (LC × LC)),
      (∀ r ∈ rs, r.inlineData.getD [] = []) →
      rs.foldl
        (fun m r =>
          match r.inlineData with
          | none => m
          | some b => if nonBlank b then upsert m r.id (mkDataUrl b) else m)
        m = m := by
    intro rs
    induction rs with
    | nil => intro m _; rfl
    | cons r rest ih =>
      intro m h
      rcases hr : r.inlineData with _ | b
      · simp only [List.foldl_cons, hr]
        exact ih m (fun x hx => h x (by simp [hx]))
      · have hb : b = [] := by have := h r (by simp); rw [hr] at this; simpa using this
        subst hb
        simp only [List.foldl_cons, hr, show nonBlank [] = false from rfl]
        exact ih m (fun x hx => h x (by simp [hx]))
  intro rs h
  exact aux rs [] h

/-- C7: image records without a usable payload cause no replacement: when no
record carries a payload the splicer is the identity, and in particular the
concrete placeholder markdown is returned unchanged for a payload-less
record. -/
theorem c7_absent_payload_unresolved :
    (∀ (md : LC) (rs : List ImageRecord),
        (∀ r ∈ rs, r.inlineData.getD [] = []) → splice md rs = md) ∧
    splice "![img-1](img-1)".data [⟨"img-1".data, none⟩] = "![img-1](img-1)".data := by
  constructor
  · intro md rs h
    rw [splice, buildImageMap_empty_of_no_payload rs h]
    rfl
  · decide

theorem c7_absent_payload_unresolved_witness :
    ((∀ r ∈ [ImageRecord.mk "img-1".data none], r.inlineData.getD [] = []) ∧
      splice "placeholder ![img-1](img-1)".data [ImageRecord.mk "img-1".data none]
        = "placeholder ![img-1](img-1)".data) ∧
    splice "![img-1](img-1)".data [⟨"img-1".data, none⟩] = "![img-1](img-1)".data :=
  ⟨⟨by decide,
    c7_absent_payload_unresolved.1 "placeholder ![img-1](img-1)".data
      [ImageRecord.mk "img-1".data none] (by decide)⟩,
   c7_absent_payload_unresolved.2⟩


theorem findCloser_cons (idc : LC) (c : Char) (rest : LC) :
    findCloser idc (c :: rest) =
      match stripPrefixL (']' :: '(' :: (idc ++ [')'])) (c :: rest) with
      | some post => some ([], post)
      | none =>
        if c = '\n' then none
        else (findCloser idc rest).map (fun x => (c :: x.1, x.2)) := rfl

theorem findOpenMatch_cons2 (idc : LC) (c1 c2 : Char) (rest : LC) :
    findOpenMatch idc (c1 :: c2 :: rest) =
      if c1 = '!' && c2 = '[' then
        match findCloser idc rest with
        | some (alt, post) => some ([], alt, post)
        | none => (findOpenMatch idc rest).map (fun x => (c1 :: c2 :: x.1, x.2.1, x.2.2))
      else (findOpenMatch idc (c2 :: rest)).map (fun x => (c1 :: x.1, x.2.1, x.2.2)) := rfl

theorem replaceAllGo_succ (pat repl : LC) (n : Nat) (s : LC) :
    replaceAllGo pat repl (n + 1) s =
      match findSub pat s with
      | none => s
      | some (pre, post) => pre ++ repl ++ replaceAllGo pat repl n post := rfl

theorem findCloser_skip (idc : LC) :
    ∀ (xs ys : LC), (∀ c ∈ xs, c ≠ ']' ∧ c ≠ '\n') →
      findCloser idc (xs ++ ys) = (findCloser idc ys).map (fun x => (xs ++ x.1, x.2)) := by
  intro xs
  induction xs with
  | nil =>
    intro ys _
    cases h : findCloser idc ys <;> simp [h]
  | cons x xs ih =>
    intro ys h
    have hx := h x (by simp)
    have hstrip : stripPrefixL (']' :: '(' :: (idc ++ [')'])) (x :: (xs ++ ys)) = none := by
      simp only [stripPrefixL]
      rw [if_neg (fun he => hx.1 he.symm)]
    rw [List.cons_append, findCloser_cons, hstrip]
    dsimp only
    rw [if_neg hx.2]
    rw [ih ys (fun c hc => h c (by simp [hc]))]
    cases hy : findCloser idc ys <;> simp

/-- C6: for the placeholder markdown `![img-1](img-1)` and a record carrying a
nonempty inline (base64-alphabet) payload with no format tag of its own, the
splicer returns exactly `![img-1](data:image/jpeg;base64,<payload>)`. -/
theorem c6_exact_placeholder_spliced (b : LC) (hne : b ≠ [])
    (hb : ∀ c ∈ b, base64Char c = true) :
    splice "![img-1](img-1)".data [⟨"img-1".data, some b⟩]
      = "![img-1](data:image/jpeg;base64,".data ++ b ++ [')'] := by
  have hnb : nonBlank b = true := nonBlank_of_b64 hne hb
  have hnd : startsWithL "data:".data b = false := not_data_prefix_of_b64 hb
  have hmem : ']' ∉ b ++ [')'] := by
    intro hm
    rcases List.mem_append.mp hm with hm | hm
    · exact absurd (hb ']' hm) (by decide)
    · exact absurd hm (by decide)
  have hBang : '!' ∉ ("img-1".data ++ ']' :: '(' ::
      (("data:image/jpeg;base64,".data ++ b) ++ [')'])) := by
    intro hm
    rcases List.mem_append.mp hm with h1 | h2
    · exact absurd h1 (by decide)
    · rcases List.mem_cons.mp h2 with h3 | h4
      · exact absurd h3 (by decide)
      · rcases List.mem_cons.mp h4 with h5 | h6
        · exact absurd h5 (by decide)
        · rcases List.mem_append.mp h6 with h7 | h8
          · rcases List.mem_append.mp h7 with h9 | h10
            · exact absurd h9 (by decide)
            · exact absurd (hb '!' h10) (by decide)
          · exact absurd h8 (by decide)
  have h5chars : ∀ c ∈ ("img-1".data : LC), c ≠ ']' ∧ c ≠ '\n' := by decide
  have h23chars : ∀ c ∈ ("data:image/jpeg;base64,".data : LC), c ≠ ']' ∧ c ≠ '\n' := by
    decide
  have hparen : findCloser "img-1".data
      ('(' :: ("data:image/jpeg;base64,".data ++ (b ++ [')']))) = none := by
    rw [findCloser_cons]
    rw [show stripPrefixL (']' :: '(' :: ("img-1".data ++ [')']))
        ('(' :: ("data:image/jpeg;base64,".data ++ (b ++ [')']))) = none from by
      simp [stripPrefixL]]
    dsimp only
    rw [if_neg (by decide)]
    rw [findCloser_skip "img-1".data _ _ h23chars]
    rw [findCloser_no_rbracket "img-1".data _ hmem]
    rfl
  have hbracket : findCloser "img-1".data
      (']' :: '(' :: ("data:image/jpeg;base64,".data ++ (b ++ [')']))) = none := by
    rw [findCloser_cons]
    rw [show stripPrefixL (']' :: '(' :: ("img-1".data ++ [')']))
        (']' :: '(' :: ("data:image/jpeg;base64,".data ++ (b ++ [')']))) = none from by
      simp [stripPrefixL]]
    dsimp only
    rw [if_neg (by decide)]
    rw [hparen]
    rfl
  have hCloser : findCloser "img-1".data ("img-1".data ++ ']' :: '(' ::
      (("data:image/jpeg;base64,".data ++ b) ++ [')'])) = none := by
    rw [show ("img-1".data ++ ']' :: '(' ::
        (("data:image/jpeg;base64,".data ++ b) ++ [')']) : LC)
      = "img-1".data ++ (']' :: '(' ::
        ("data:image/jpeg;base64,".data ++ (b ++ [')']))) from by simp]
    rw [findCloser_skip "img-1".data _ _ h5chars, hbracket]
    rfl
  have hOpen : findOpenMatch "img-1".data
      ('!' :: '[' :: ("img-1".data ++ ']' :: '(' ::
        (("data:image/jpeg;base64,".data ++ b) ++ [')']))) = none := by
    rw [findOpenMatch_cons2]
    rw [if_pos (by decide)]
    rw [hCloser]
    dsimp only
    rw [findOpenMatch_no_bang "img-1".data _ hBang]
    rfl
  have hmap : buildImageMap [⟨"img-1".data, some b⟩]
      = [("img-1".data, "data:image/jpeg;base64,".data ++ b)] := by
    simp only [buildImageMap, List.foldl_cons, List.foldl_nil]
    rw [if_pos hnb]
    simp only [mkDataUrl]
    rw [if_neg (by simp [hnd])]
    simp only [upsert]
  have hpass1 : replaceAllStr
      ('!' :: '[' :: ("img-1".data ++ ']' :: '(' :: ("img-1".data ++ [')'])))
      ('!' :: '[' :: ("img-1".data ++ ']' :: '(' ::
        (("data:image/jpeg;base64,".data ++ b) ++ [')'])))
      "![img-1](img-1)".data
      = '!' :: '[' :: ("img-1".data ++ ']' :: '(' ::
        (("data:image/jpeg;base64,".data ++ b) ++ [')'])) := by
    rw [replaceAllStr]
    rw [show ("![img-1](img-1)".data).length = 15 from by decide]
    rw [replaceAllGo_succ]
    rw [show findSub ('!' :: '[' :: ("img-1".data ++ ']' :: '(' :: ("img-1".data ++ [')'])))
        "![img-1](img-1)".data = some ([], []) from by decide]
    dsimp only
    rw [replaceAllGo_nil_of_none (by decide)]
    simp
  rw [splice, hmap]
  simp only [List.foldl_cons, List.foldl_nil]
  simp only [spliceOne]
  rw [if_pos (show containsSub
      ('!' :: '[' :: ("img-1".data ++ ']' :: '(' :: ("img-1".data ++ [')'])))
      "![img-1](img-1)".data = true from by decide)]
  rw [hpass1]
  rw [regexMatches, regexMatchesGo_of_none hOpen]
  simp only [applyMatches]
  simp

theorem c6_exact_placeholder_spliced_witness :
    ("QUJD".data ≠ [] ∧ (∀ c ∈ "QUJD".data, base64Char c = true)) ∧
    splice "![img-1](img-1)".data [⟨"img-1".data, some "QUJD".data⟩]
      = "![img-1](data:image/jpeg;base64,".data ++ "QUJD".data ++ [')'] :=
  ⟨⟨by decide, by decide⟩,
   c6_exact_placeholder_spliced "QUJD".data (by decide) (by decide)⟩

theorem findSub_cons (pat : LC) (c : Char) (rest : LC) :
    findSub pat (c :: rest) =
      match stripPrefixL pat (c :: rest) with
      | some post => some ([], post)
      | none => (findSub pat rest).map (fun x => (c :: x.1, x.2)) := rfl

theorem findSub_skip (p : Char) (pat' : LC) :
    ∀ (xs ys : LC), p ∉ xs →
      findSub (p :: pat') (xs ++ ys)
        = (findSub (p :: pat') ys).map (fun x => (xs ++ x.1, x.2)) := by
  intro xs
  induction xs with
  | nil =>
    intro ys _
    cases h : findSub (p :: pat') ys <;> simp [h]
  | cons x xs ih =>
    intro ys h
    have hx : p ≠ x := fun he => h (by simp [he])
    have hstrip : stripPrefixL (p :: pat') (x :: (xs ++ ys)) = none := by
      simp only [stripPrefixL]
      rw [if_neg hx]
    rw [List.cons_append, findSub_cons, hstrip]
    dsimp only
    rw [ih ys (fun hc => h (List.mem_cons_of_mem _ hc))]
    cases hy : findSub (p :: pat') ys <;> simp

theorem buildImageMap_single (idc b : LC) (hnb : nonBlank b = true)
    (hnd : startsWithL "data:".data b = false) :
    buildImageMap [⟨idc, some b⟩] = [(idc, "data:image/jpeg;base64,".data ++ b)] := by
  simp only [buildImageMap, List.foldl_cons, List.foldl_nil]
  rw [if_pos hnb]
  simp only [mkDataUrl]
  rw [if_neg (by simp [hnd])]
  simp only [upsert]


/-- Plain token characters for image ids (letters, digits, `-`, `.`, `_`):
opaque OCR identifiers, free of markdown/regex structural characters. -/
def idChar (c : Char) : Bool :=
  (48 ≤ c.toNat && c.toNat ≤ 57) || (65 ≤ c.toNat && c.toNat ≤ 90) ||
  (97 ≤ c.toNat && c.toNat ≤ 122) || c = '-' || c = '.' || c = '_'

/-- Characters admissible in an alt text for the loose rewrite to be
guaranteed: no `!` or `]` (which could open or close another image reference),
no `$` (special in a JS string-replacement), and no line terminator (the
pattern's wildcard cannot cross one). -/
def altChar (c : Char) : Bool :=
  !(c = '!') && !(c = ']') && !(c = '$') &&
  !(c = '\n') && !(c = '\r') && !(c.toNat = 0x2028) && !(c.toNat = 0x2029)

/-- Markdown assembled from occurrences of the loose image syntax: each pair
`(alt, t)` contributes `![alt](id)` followed by the free text `t`. -/
def occsText (idc : LC) : List (LC × LC) → LC
  | [] => []
  | (a, t) :: rest => looseMatchText idc a ++ t ++ occsText idc rest

/-- The same markdown after the rewrite: every target replaced by the data
URL, every alt text preserved. -/
def doneText (durl : LC) : List (LC × LC) → LC
  | [] => []
  | (a, t) :: rest => looseMatchText durl a ++ t ++ doneText durl rest

theorem stripPrefixL_self : ∀ (p t : LC), stripPrefixL p (p ++ t) = some t := by
  intro p
  induction p with
  | nil => intro t; rfl
  | cons c cs ih => intro t; simp [stripPrefixL, ih]

theorem stripPrefix_pivot (piv : Char) :
    ∀ (u v p' s' : LC), piv ∉ u → piv ∉ v →
      stripPrefixL (u ++ piv :: p') (v ++ piv :: s')
        = if u = v then stripPrefixL p' s' else none := by
  intro u
  induction u with
  | nil =>
    intro v p' s' _ hv
    cases v with
    | nil => simp [stripPrefixL]
    | cons d v' =>
      have hd : piv ≠ d := fun he => hv (by simp [he])
      simp [stripPrefixL, hd]
  | cons c u' ih =>
    intro v p' s' hu hv
    have hc : c ≠ piv := fun he => hu (by simp [he])
    cases v with
    | nil =>
      simp [stripPrefixL, hc]
    | cons d v' =>
      by_cases hcd : c = d
      · subst hcd
        have h1 : piv ∉ u' := fun hm => hu (by simp [hm])
        have h2 : piv ∉ v' := fun hm => hv (by simp [hm])
        simp [stripPrefixL, ih v' p' s' h1 h2]
      · simp [stripPrefixL, hcd]

theorem strip_loose_at_done (idc durl x a Z : LC)
    (hx : ']' ∉ x) (ha : ']' ∉ a)
    (hidc : ')' ∉ idc) (hdurl : ')' ∉ durl) (hne : idc ≠ durl) :
    stripPrefixL (looseMatchText idc x)
      ('!' :: '[' :: (a ++ ']' :: '(' :: (durl ++ ')' :: Z))) = none := by
  simp only [looseMatchText, stripPrefixL]
  rw [stripPrefix_pivot ']' x a _ _ hx ha]
  by_cases hxa : x = a
  · rw [if_pos hxa]
    simp only [stripPrefixL]
    rw [stripPrefix_pivot ')' idc durl _ _ hidc hdurl]
    simp [hne]
  · rw [if_neg hxa]
    simp

theorem strip_loose_at_occ (idc x a Z : LC)
    (hx : ']' ∉ x) (ha : ']' ∉ a) (hxa : x ≠ a) :
    stripPrefixL (looseMatchText idc x)
      ('!' :: '[' :: (a ++ ']' :: '(' :: (idc ++ ')' :: Z))) = none := by
  simp only [looseMatchText, stripPrefixL]
  rw [stripPrefix_pivot ']' x a _ _ hx ha]
  rw [if_neg hxa]
  simp

theorem findSub_cons_skip (p : Char) (pat' : LC) (c : Char) (body Z : LC)
    (hstrip : stripPrefixL (p :: pat') (c :: (body ++ Z)) = none)
    (hbody : p ∉ body) :
    findSub (p :: pat') (c :: (body ++ Z))
      = (findSub (p :: pat') Z).map (fun x => ((c :: body) ++ x.1, x.2)) := by
  rw [findSub_cons, hstrip]
  dsimp only
  rw [findSub_skip p pat' body Z hbody]
  cases h : findSub (p :: pat') Z <;> simp

theorem findSub_over_done (idc durl x : LC) (hx : ']' ∉ x)
    (hidc : ')' ∉ idc) (hdp : ')' ∉ durl) (hdb : '!' ∉ durl) (hne : idc ≠ durl) :
    ∀ (done : List (LC × LC)) (Z : LC),
      (∀ q ∈ done, ']' ∉ q.1 ∧ '!' ∉ q.1 ∧ '!' ∉ q.2) →
      findSub (looseMatchText idc x) (doneText durl done ++ Z)
        = (findSub (looseMatchText idc x) Z).map
            (fun r => (doneText durl done ++ r.1, r.2)) := by
  intro done
  induction done with
  | nil =>
    intro Z _
    simp only [doneText, List.nil_append]
    cases h : findSub (looseMatchText idc x) Z <;> simp [h]
  | cons q rest ih =>
    obtain ⟨a, t⟩ := q
    intro Z h
    obtain ⟨ha1, ha2, ha3⟩ := h (a, t) (by simp)
    have hsubj : (doneText durl ((a, t) :: rest) ++ Z : LC)
        = '!' :: (('[' :: (a ++ ']' :: '(' :: (durl ++ [')'])))
            ++ (t ++ (doneText durl rest ++ Z))) := by
      simp [doneText, looseMatchText]
    rw [hsubj]
    have hstrip : stripPrefixL (looseMatchText idc x)
        ('!' :: (('[' :: (a ++ ']' :: '(' :: (durl ++ [')'])))
          ++ (t ++ (doneText durl rest ++ Z)))) = none := by
      have he : ('!' :: (('[' :: (a ++ ']' :: '(' :: (durl ++ [')'])))
          ++ (t ++ (doneText durl rest ++ Z))) : LC)
        = '!' :: '[' :: (a ++ ']' :: '(' ::
            (durl ++ ')' :: (t ++ (doneText durl rest ++ Z)))) := by simp
      rw [he]
      exact strip_loose_at_done idc durl x a _ hx ha1 hidc hdp hne
    have hbody : '!' ∉ ('[' :: (a ++ ']' :: '(' :: (durl ++ [')'])) : LC) := by
      intro hm
      rcases List.mem_cons.mp hm with h1 | h2
      · exact absurd h1 (by decide)
      · rcases List.mem_append.mp h2 with h3 | h4
        · exact ha2 h3
        · rcases List.mem_cons.mp h4 with h5 | h6
          · exact absurd h5 (by decide)
          · rcases List.mem_cons.mp h6 with h7 | h8
            · exact absurd h7 (by decide)
            · rcases List.mem_append.mp h8 with h9 | h10
              · exact hdb h9
              · exact absurd h10 (by decide)
    have hpat : looseMatchText idc x
        = '!' :: ('[' :: (x ++ ']' :: '(' :: (idc ++ [')']))) := rfl
    rw [hpat] at hstrip ⊢
    rw [findSub_cons_skip '!' _ '!' _ _ hstrip hbody]
    rw [findSub_skip '!' _ t (doneText durl rest ++ Z) ha3]
    rw [← hpat, ih Z (fun q hq => h q (by simp [hq]))]
    cases hz : findSub (looseMatchText idc x) Z <;>
      simp [doneText, looseMatchText, hz]

theorem findOpenMatch_skip (idc : LC) :
    ∀ (xs ys : LC), '!' ∉ xs →
      findOpenMatch idc (xs ++ ys)
        = (findOpenMatch idc ys).map (fun r => (xs ++ r.1, r.2.1, r.2.2)) := by
  intro xs
  induction xs with
  | nil =>
    intro ys _
    cases h : findOpenMatch idc ys <;> simp [h]
  | cons c xs' ih =>
    intro ys h
    have hc : c ≠ '!' := fun he => h (by simp [he])
    have h' : '!' ∉ xs' := fun hm => h (List.mem_cons_of_mem _ hm)
    rcases he : (xs' ++ ys : LC) with _ | ⟨c2, rest2⟩
    · obtain ⟨h1, h2⟩ := List.append_eq_nil.mp he
      subst h1; subst h2
      rfl
    · have step : findOpenMatch idc (c :: (xs' ++ ys))
          = (findOpenMatch idc (xs' ++ ys)).map
              (fun r => (c :: r.1, r.2.1, r.2.2)) := by
        rw [he, findOpenMatch_cons2, if_neg (by simp [hc])]
      rw [List.cons_append, step, ih ys h']
      cases hy : findOpenMatch idc ys <;> simp

theorem findOpenMatch_at_occ (idc a Z t0 : LC) (ht0 : '!' ∉ t0)
    (ha1 : ']' ∉ a) (ha2 : '\n' ∉ a) :
    findOpenMatch idc (t0 ++ (looseMatchText idc a ++ Z)) = some (t0, a, Z) := by
  rw [findOpenMatch_skip idc t0 _ ht0]
  have hsub : (looseMatchText idc a ++ Z : LC)
      = '!' :: '[' :: (a ++ ']' :: '(' :: (idc ++ ')' :: Z)) := by
    simp [looseMatchText]
  have hself : stripPrefixL (']' :: '(' :: (idc ++ [')']))
      (']' :: '(' :: (idc ++ ')' :: Z)) = some Z := by
    have he : (']' :: '(' :: (idc ++ ')' :: Z) : LC)
        = (']' :: '(' :: (idc ++ [')'])) ++ Z := by simp
    rw [he, stripPrefixL_self]
  have hcl : findCloser idc (a ++ ']' :: '(' :: (idc ++ ')' :: Z)) = some (a, Z) := by
    rw [findCloser_skip idc a _
      (fun c hc => ⟨fun he => ha1 (he ▸ hc), fun he => ha2 (he ▸ hc)⟩)]
    rw [findCloser_cons, hself]
    simp
  rw [hsub, findOpenMatch_cons2, if_pos (by decide), hcl]
  simp

theorem findSub_self (pat Z : LC) (h : pat ≠ []) :
    findSub pat (pat ++ Z) = some ([], Z) := by
  cases pat with
  | nil => exact absurd rfl h
  | cons p pat' =>
    rw [List.cons_append, findSub_cons]
    rw [show stripPrefixL (p :: pat') (p :: (pat' ++ Z)) = some Z from by
      have he : (p :: (pat' ++ Z) : LC) = (p :: pat') ++ Z := by simp
      rw [he, stripPrefixL_self]]

theorem occsText_length (idc : LC) :
    ∀ (occs : List (LC × LC)), occs.length ≤ (occsText idc occs).length := by
  intro occs
  induction occs with
  | nil => simp [occsText]
  | cons q rest ih =>
    obtain ⟨a, t⟩ := q
    simp only [occsText, looseMatchText, List.length_cons, List.length_append]
    omega

theorem regexMatchesGo_succ (idc : LC) (n : Nat) (s : LC) :
    regexMatchesGo idc (n + 1) s =
      match findOpenMatch idc s with
      | none => []
      | some (_, alt, post) =>
        (looseMatchText idc alt, alt) :: regexMatchesGo idc n post := rfl

theorem doneText_append (durl : LC) :
    ∀ (d1 d2 : List (LC × LC)),
      doneText durl (d1 ++ d2) = doneText durl d1 ++ doneText durl d2 := by
  intro d1 d2
  induction d1 with
  | nil => simp [doneText]
  | cons q rest ih =>
    obtain ⟨a, t⟩ := q
    simp [doneText, ih]

theorem regexMatchesGo_assembled (idc : LC) :
    ∀ (occs : List (LC × LC)) (t0 : LC) (fuel : Nat),
      (∀ q ∈ occs, ']' ∉ q.1 ∧ '\n' ∉ q.1 ∧ '!' ∉ q.2) →
      '!' ∉ t0 → occs.length ≤ fuel →
      regexMatchesGo idc fuel (t0 ++ occsText idc occs)
        = occs.map (fun q => (looseMatchText idc q.1, q.1)) := by
  intro occs
  induction occs with
  | nil =>
    intro t0 fuel _ ht0 _
    have h0 : findOpenMatch idc (t0 ++ occsText idc []) = none := by
      simp only [occsText, List.append_nil]
      exact findOpenMatch_no_bang idc t0 ht0
    rw [regexMatchesGo_of_none h0]
    rfl
  | cons q rest ih =>
    obtain ⟨a, t⟩ := q
    intro t0 fuel h ht0 hlen
    obtain ⟨ha1, ha2, ht⟩ := h (a, t) (by simp)
    cases fuel with
    | zero => simp at hlen
    | succ n =>
      have hsubj : (t0 ++ occsText idc ((a, t) :: rest) : LC)
          = t0 ++ (looseMatchText idc a ++ (t ++ occsText idc rest)) := by
        simp [occsText]
      rw [hsubj, regexMatchesGo_succ, findOpenMatch_at_occ idc a _ t0 ht0 ha1 ha2]
      dsimp only
      rw [ih t n (fun q hq => h q (by simp [hq])) ht
        (by simp only [List.length_cons] at hlen; omega)]
      rfl

theorem findSub_exact_none (idc : LC) (hid1 : ']' ∉ idc) (hid2 : '!' ∉ idc) :
    ∀ (occs : List (LC × LC)),
      (∀ q ∈ occs, ']' ∉ q.1 ∧ '!' ∉ q.1 ∧ '!' ∉ q.2 ∧ q.1 ≠ idc) →
      findSub (looseMatchText idc idc) (occsText idc occs) = none := by
  intro occs
  induction occs with
  | nil => intro _; rfl
  | cons q rest ih =>
    obtain ⟨a, t⟩ := q
    intro h
    obtain ⟨ha1, ha2, ht, hane⟩ := h (a, t) (by simp)
    have hsubj : (occsText idc ((a, t) :: rest) : LC)
        = '!' :: (('[' :: (a ++ ']' :: '(' :: (idc ++ [')'])))
            ++ (t ++ occsText idc rest)) := by
      simp [occsText, looseMatchText]
    rw [hsubj]
    have hstrip : stripPrefixL (looseMatchText idc idc)
        ('!' :: (('[' :: (a ++ ']' :: '(' :: (idc ++ [')'])))
          ++ (t ++ occsText idc rest))) = none := by
      have he : ('!' :: (('[' :: (a ++ ']' :: '(' :: (idc ++ [')'])))
          ++ (t ++ occsText idc rest)) : LC)
        = '!' :: '[' :: (a ++ ']' :: '(' ::
            (idc ++ ')' :: (t ++ occsText idc rest))) := by simp
      rw [he]
      exact strip_loose_at_occ idc idc a _ hid1 ha1 (fun hh => hane hh.symm)
    have hbody : '!' ∉ ('[' :: (a ++ ']' :: '(' :: (idc ++ [')'])) : LC) := by
      intro hm
      rcases List.mem_cons.mp hm with h1 | h2
      · exact absurd h1 (by decide)
      · rcases List.mem_append.mp h2 with h3 | h4
        · exact ha2 h3
        · rcases List.mem_cons.mp h4 with h5 | h6
          · exact absurd h5 (by decide)
          · rcases List.mem_cons.mp h6 with h7 | h8
            · exact absurd h7 (by decide)
            · rcases List.mem_append.mp h8 with h9 | h10
              · exact hid2 h9
              · exact absurd h10 (by decide)
    have hpat : looseMatchText idc idc
        = '!' :: ('[' :: (idc ++ ']' :: '(' :: (idc ++ [')']))) := rfl
    rw [hpat] at hstrip ⊢
    rw [findSub_cons_skip '!' _ '!' _ _ hstrip hbody]
    rw [findSub_skip '!' _ t (occsText idc rest) ht]
    rw [← hpat, ih (fun q hq => h q (by simp [hq]))]
    rfl

theorem applyMatches_loop (idc durl : LC)
    (hidp : ')' ∉ idc) (hdp : ')' ∉ durl) (hdb : '!' ∉ durl) (hne : idc ≠ durl) :
    ∀ (occs done : List (LC × LC)) (t0 : LC),
      (∀ q ∈ occs, ']' ∉ q.1 ∧ '!' ∉ q.1 ∧ '!' ∉ q.2) →
      (∀ q ∈ done, ']' ∉ q.1 ∧ '!' ∉ q.1 ∧ '!' ∉ q.2) →
      '!' ∉ t0 →
      applyMatches durl (occs.map (fun q => (looseMatchText idc q.1, q.1)))
          (t0 ++ (doneText durl done ++ occsText idc occs))
        = t0 ++ (doneText durl done ++ doneText durl occs) := by
  intro occs
  induction occs with
  | nil =>
    intro done t0 _ _ _
    simp [applyMatches, occsText, doneText]
  | cons q rest ih =>
    obtain ⟨a, t⟩ := q
    intro done t0 h hdone ht0
    obtain ⟨ha1, ha2, ht⟩ := h (a, t) (by simp)
    have hpat : looseMatchText idc a
        = '!' :: ('[' :: (a ++ ']' :: '(' :: (idc ++ [')']))) := rfl
    have hfind : findSub (looseMatchText idc a)
        (t0 ++ (doneText durl done ++ occsText idc ((a, t) :: rest)))
        = some (t0 ++ doneText durl done, t ++ occsText idc rest) := by
      rw [hpat]
      rw [findSub_skip '!' _ t0
        (doneText durl done ++ occsText idc ((a, t) :: rest)) ht0]
      rw [← hpat]
      rw [findSub_over_done idc durl a ha1 hidp hdp hdb hne done
        (occsText idc ((a, t) :: rest)) hdone]
      rw [show findSub (looseMatchText idc a) (occsText idc ((a, t) :: rest))
          = some ([], t ++ occsText idc rest) from by
        have he : (occsText idc ((a, t) :: rest) : LC)
            = looseMatchText idc a ++ (t ++ occsText idc rest) := by
          simp [occsText]
        rw [he]
        exact findSub_self _ _ (by simp [looseMatchText])]
      simp
    simp only [List.map_cons, applyMatches]
    rw [show replaceFirstStr (looseMatchText idc a)
        ('!' :: '[' :: (a ++ ']' :: '(' :: (durl ++ [')'])))
        (t0 ++ (doneText durl done ++ occsText idc ((a, t) :: rest)))
        = t0 ++ (doneText durl (done ++ [(a, t)]) ++ occsText idc rest) from by
      simp only [replaceFirstStr]
      rw [hfind]
      simp [doneText_append, doneText, looseMatchText]]
    rw [ih (done ++ [(a, t)]) t0 (fun q hq => h q (by simp [hq]))
      (fun q hq => by
        rcases List.mem_append.mp hq with h1 | h2
        · exact hdone q h1
        · have hq2 : q = (a, t) := by simpa using h2
          subst hq2
          exact ⟨ha1, ha2, ht⟩) ht0]
    simp [doneText_append, doneText]

/-- C8 (amended): for every record with a nonempty inline base64 payload and a
plain-token id, and every markdown assembled from occurrences `![alt](id)`
separated by arbitrary bang-free text, the splicer rewrites every occurrence,
preserving each alt text and replacing each target by the inline data
reference — provided each alt text differs from the id and contains no `!`,
`]`, `$` or line terminator (the code's pattern and replacement mechanics
break on those); the id is matched as a literal opaque token (here a `.`-id
does not match a target differing at that character). -/
theorem c8_loose_alt_preserving_splice
    (idc b t0 : LC) (occs : List (LC × LC))
    (hbne : b ≠ []) (hb : ∀ c ∈ b, base64Char c = true)
    (hidc : ∀ c ∈ idc, idChar c = true)
    (hoccs : ∀ q ∈ occs, (∀ c ∈ q.1, altChar c = true) ∧ q.1 ≠ idc ∧ '!' ∉ q.2)
    (ht0 : '!' ∉ t0) :
    splice (t0 ++ occsText idc occs) [⟨idc, some b⟩]
        = t0 ++ doneText ("data:image/jpeg;base64,".data ++ b) occs ∧
    splice "![y](imgZ1)".data [⟨"img.1".data, some b⟩] = "![y](imgZ1)".data := by
  have hnb : nonBlank b = true := nonBlank_of_b64 hbne hb
  have hnd : startsWithL "data:".data b = false := not_data_prefix_of_b64 hb
  have hbang_b : '!' ∉ b := fun hm => absurd (hb '!' hm) (by decide)
  have hrp_b : ')' ∉ b := fun hm => absurd (hb ')' hm) (by decide)
  have hid_rb : ']' ∉ idc := fun hm => absurd (hidc ']' hm) (by decide)
  have hid_bang : '!' ∉ idc := fun hm => absurd (hidc '!' hm) (by decide)
  have hid_rp : ')' ∉ idc := fun hm => absurd (hidc ')' hm) (by decide)
  have hid_colon : ':' ∉ idc := fun hm => absurd (hidc ':' hm) (by decide)
  have hdb : '!' ∉ ("data:image/jpeg;base64,".data ++ b) := by
    intro hm
    rcases List.mem_append.mp hm with h1 | h2
    · exact absurd h1 (by decide)
    · exact hbang_b h2
  have hdp : ')' ∉ ("data:image/jpeg;base64,".data ++ b) := by
    intro hm
    rcases List.mem_append.mp hm with h1 | h2
    · exact absurd h1 (by decide)
    · exact hrp_b h2
  have hne : idc ≠ "data:image/jpeg;base64,".data ++ b := by
    intro he
    refine hid_colon ?_
    rw [he]
    exact List.mem_append.mpr (Or.inl (by decide))
  have hoccs1 : ∀ q ∈ occs, ']' ∉ q.1 ∧ '!' ∉ q.1 ∧ '!' ∉ q.2 := fun q hq =>
    ⟨fun hm => absurd ((hoccs q hq).1 ']' hm) (by decide),
     fun hm => absurd ((hoccs q hq).1 '!' hm) (by decide),
     (hoccs q hq).2.2⟩
  have hoccs2 : ∀ q ∈ occs, ']' ∉ q.1 ∧ '\n' ∉ q.1 ∧ '!' ∉ q.2 := fun q hq =>
    ⟨(hoccs1 q hq).1,
     fun hm => absurd ((hoccs q hq).1 '\n' hm) (by decide),
     (hoccs q hq).2.2⟩
  have hoccs3 : ∀ q ∈ occs, ']' ∉ q.1 ∧ '!' ∉ q.1 ∧ '!' ∉ q.2 ∧ q.1 ≠ idc :=
    fun q hq => ⟨(hoccs1 q hq).1, (hoccs1 q hq).2.1, (hoccs1 q hq).2.2,
      (hoccs q hq).2.1⟩
  constructor
  · rw [splice, buildImageMap_single idc b hnb hnd]
    simp only [List.foldl_cons, List.foldl_nil, spliceOne]
    have hcont : containsSub ('!' :: '[' :: (idc ++ ']' :: '(' :: (idc ++ [')'])))
        (t0 ++ occsText idc occs) = false := by
      have h1 := findSub_skip '!' ('[' :: (idc ++ ']' :: '(' :: (idc ++ [')'])))
        t0 (occsText idc occs) ht0
      have h2 : findSub ('!' :: '[' :: (idc ++ ']' :: '(' :: (idc ++ [')'])))
          (occsText idc occs) = none :=
        findSub_exact_none idc hid_rb hid_bang occs hoccs3
      rw [containsSub, h1, h2]
      rfl
    rw [if_neg (by simp [hcont])]
    simp only [regexMatches]
    have hlen : occs.length ≤ (t0 ++ occsText idc occs).length := by
      have := occsText_length idc occs
      simp only [List.length_append]
      omega
    rw [regexMatchesGo_assembled idc occs t0 _ hoccs2 ht0 hlen]
    have happ := applyMatches_loop idc ("data:image/jpeg;base64,".data ++ b)
      hid_rp hdp hdb hne occs [] t0 hoccs1 (by simp) ht0
    simpa [doneText] using happ
  · rw [splice, buildImageMap_single "img.1".data b hnb hnd]
    simp only [List.foldl_cons, List.foldl_nil, spliceOne]
    rw [if_neg (show ¬(containsSub
        ('!' :: '[' :: ("img.1".data ++ ']' :: '(' :: ("img.1".data ++ [')'])))
        "![y](imgZ1)".data = true) from by decide)]
    rw [show regexMatches "img.1".data "![y](imgZ1)".data = [] from by decide]
    simp only [applyMatches]

/-- C8 counterexample to the original universal claim: an occurrence
`![X](id)` whose alt text contains a line terminator is not rewritten at all,
even for a record with a nonempty inline payload, because the loose pattern's
wildcard cannot cross the terminator. -/
theorem c8_newline_alt_not_rewritten :
    splice "![a\nb](img.1)".data [⟨"img.1".data, some "QUJD".data⟩]
        = "![a\nb](img.1)".data ∧
    ("![a\nb](img.1)".data : LC)
        ≠ "![a\nb](data:image/jpeg;base64,QUJD)".data := by decide

theorem c8_loose_alt_preserving_splice_witness :
    (("QUJD".data ≠ [] ∧ (∀ c ∈ "QUJD".data, base64Char c = true)) ∧
      (∀ c ∈ "img.1".data, idChar c = true) ∧
      (∀ q ∈ [("photo".data, " and ".data), ("pic".data, " end".data)],
        (∀ c ∈ (q : LC × LC).1, altChar c = true) ∧ q.1 ≠ "img.1".data ∧ '!' ∉ q.2) ∧
      '!' ∉ "see ".data) ∧
    splice ("see ".data ++ occsText "img.1".data
        [("photo".data, " and ".data), ("pic".data, " end".data)])
        [⟨"img.1".data, some "QUJD".data⟩]
      = "see ".data ++ doneText ("data:image/jpeg;base64,".data ++ "QUJD".data)
          [("photo".data, " and ".data), ("pic".data, " end".data)] ∧
    splice "![y](imgZ1)".data [⟨"img.1".data, some "QUJD".data⟩]
      = "![y](imgZ1)".data :=
  ⟨⟨⟨by decide, by decide⟩, by decide, by decide, by decide⟩,
   (c8_loose_alt_preserving_splice "img.1".data "QUJD".data "see ".data
      [("photo".data, " and ".data), ("pic".data, " end".data)]
      (by decide) (by decide) (by decide) (by decide) (by decide)).1,
   (c8_loose_alt_preserving_splice "img.1".data "QUJD".data "see ".data
      [("photo".data, " and ".data), ("pic".data, " end".data)]
      (by decide) (by decide) (by decide) (by decide) (by decide)).2⟩
